import Mathlib

/-!
# Verification of the lockbox secret store (src/main.rs)

A shallow embedding of the lockbox program: a CLI password manager that keeps
a `Store` of credential records in one JSON file, sealed with authenticated
encryption under a key derived from a master passphrase.

Conventions of the embedding:

* Rust byte strings (`&[u8]`, `Vec<u8>`, `String` contents) are `List Nat`
  with every entry `< 256`; machine integers (`usize`, `u32`) are `Nat` with
  explicit bounds (`< 2^64`, `< 2^32`) where the width matters.
* The external cryptographic library (orion) is modelled as an *ideal*
  deterministic functionality faithful to its documented contract: the
  Argon2 key derivation is deterministic in (passphrase, salt, cost), and
  the AEAD seal/open pair is correct, key-binding and tamper-evident.
  The random nonce inside orion's blob is omitted (no claim depends on it);
  the tamper-evidence of the authenticator is made definitional by an
  injective, redundancy-carrying byte encoding of the sealed data.
* `serde_json` serialization of values is modelled at two levels: the JSON
  value tree (`Json`) for the on-disk file, and an injective byte
  serialization for the plaintext sealed inside the blob, each with a
  parser that is its left inverse — the contract the program relies on.
* File-system effects are modelled by explicit state passing.
-/

/-! ## Fixed-width byte framing helpers (8-byte big-endian lengths/integers) -/

/-- A `Nat` as 8 big-endian base-256 digits (the value is taken mod `2^64`,
matching a `u64`/`usize` width). -/
def fix8 (n : Nat) : List Nat :=
  [n / 256 ^ 7 % 256, n / 256 ^ 6 % 256, n / 256 ^ 5 % 256, n / 256 ^ 4 % 256,
   n / 256 ^ 3 % 256, n / 256 ^ 2 % 256, n / 256 % 256, n % 256]

/-- Recombine big-endian base-256 digits. -/
def unfix8 (l : List Nat) : Nat :=
  l.foldl (fun acc b => acc * 256 + b) 0

theorem fix8_length (n : Nat) : (fix8 n).length = 8 := rfl

theorem fix8_lt (n : Nat) : ∀ b ∈ fix8 n, b < 256 := by
  intro b hb
  simp only [fix8, List.mem_cons, List.not_mem_nil, or_false] at hb
  rcases hb with h | h | h | h | h | h | h | h <;> subst h <;>
    exact Nat.mod_lt _ (by norm_num)

theorem unfix8_fix8 (n : Nat) (h : n < 2 ^ 64) : unfix8 (fix8 n) = n := by
  simp only [fix8, unfix8, List.foldl]
  omega

/-- Read an 8-byte big-endian integer off the front of a byte list. -/
def readFix8 (bs : List Nat) : Option (Nat × List Nat) :=
  if 8 ≤ bs.length then some (unfix8 (bs.take 8), bs.drop 8) else none

/-- Read exactly `n` bytes off the front of a byte list. -/
def readN (n : Nat) (bs : List Nat) : Option (List Nat × List Nat) :=
  if n ≤ bs.length then some (bs.take n, bs.drop n) else none

theorem readFix8_append (n : Nat) (rest : List Nat) (h : n < 2 ^ 64) :
    readFix8 (fix8 n ++ rest) = some (n, rest) := by
  have hlen : (fix8 n ++ rest).length = 8 + rest.length := by
    simp [List.length_append, fix8_length]
  have h8 : (8 : Nat) = (fix8 n).length := rfl
  have htake : (fix8 n ++ rest).take 8 = fix8 n := by
    rw [h8, List.take_left]
  have hdrop : (fix8 n ++ rest).drop 8 = rest := by
    rw [h8, List.drop_left]
  simp [readFix8, hlen, htake, hdrop, unfix8_fix8 n h]

theorem readN_append (xs rest : List Nat) :
    readN xs.length (xs ++ rest) = some (xs, rest) := by
  simp [readN, List.length_append, List.take_left, List.drop_left]

/-! ## Idealized AEAD (model of orion's `aead::seal` / `aead::open`)

orion seals with XChaCha20-Poly1305: the blob carries a nonce, the
ciphertext and an authenticator tag, and `open` fails closed on any
corruption or wrong key.  The ideal model realises exactly that contract:
the sealed bytes are an injective encoding of (key, plaintext) in which
every byte is carried twice, so any single-byte change is detected
unconditionally, and `open` checks the full key before releasing bytes. -/

/-- Double every byte: the redundancy that makes tampering with the sealed
blob unconditionally detectable in the ideal model. -/
def dup : List Nat → List Nat
  | [] => []
  | b :: rest => b :: b :: dup rest

/-- Inverse of `dup`; fails if any doubled pair disagrees (corruption) or
the length is odd (truncation). -/
def undup : List Nat → Option (List Nat)
  | [] => some []
  | [_] => none
  | a :: b :: rest => if a = b then (undup rest).map (a :: ·) else none

theorem undup_dup (xs : List Nat) : undup (dup xs) = some xs := by
  induction xs with
  | nil => rfl
  | cons b rest ih => simp [dup, undup, ih]

theorem dup_length (xs : List Nat) : (dup xs).length = 2 * xs.length := by
  induction xs with
  | nil => rfl
  | cons b rest ih => simp [dup, ih]; omega

/-- Corrupting any single byte of `dup xs` makes `undup` fail. -/
theorem undup_set_ne (xs : List Nat) (i : Nat) (b' : Nat)
    (hi : i < (dup xs).length) (hb : b' ≠ (dup xs).getD i 0) :
    undup ((dup xs).set i b') = none := by
  induction xs generalizing i with
  | nil => simp [dup] at hi
  | cons x rest ih =>
    match i with
    | 0 =>
      simp only [dup, List.getD_cons_zero] at hb
      simp [dup, undup, List.set, hb]
    | 1 =>
      simp only [dup, List.getD_cons_succ, List.getD_cons_zero] at hb
      simp [dup, undup, List.set, Ne.symm hb]
    | Nat.succ (Nat.succ j) =>
      simp only [dup, List.length_cons] at hi
      simp only [dup, List.getD_cons_succ] at hb
      simp [dup, undup, List.set, ih j (by omega) hb]

/-- The symmetric key, as derived by the ideal KDF.  Modelling the derived
key as the tuple of KDF inputs makes the determinism of Argon2 and the
ideal-cipher assumption (distinct inputs give usably distinct keys)
explicit. -/
structure DKey where
  pass : List Nat
  salt : List Nat
  iters : Nat
  mem : Nat
deriving DecidableEq, Repr

/-- Model of `orion::kdf::derive_key` (deterministic in passphrase, salt and
cost parameters; 32-byte output abstracted as the input tuple). -/
def derive_key (pass salt : List Nat) (iters mem : Nat) : DKey :=
  ⟨pass, salt, iters, mem⟩

/-- Injective byte encoding of a key, length-framed per field. -/
def encodeDKey (k : DKey) : List Nat :=
  fix8 k.pass.length ++ k.pass ++ fix8 k.salt.length ++ k.salt ++
    fix8 k.iters ++ fix8 k.mem

/-- Parse a key off the front of a byte list (inverse of `encodeDKey`). -/
def parseDKey (bs : List Nat) : Option (DKey × List Nat) :=
  (readFix8 bs).bind fun (pl, r1) =>
  (readN pl r1).bind fun (pass, r2) =>
  (readFix8 r2).bind fun (sl, r3) =>
  (readN sl r3).bind fun (salt, r4) =>
  (readFix8 r4).bind fun (it, r5) =>
  (readFix8 r5).map fun (mem, rest) => (⟨pass, salt, it, mem⟩, rest)

/-- Side condition under which the key encoding round-trips: field lengths
and cost integers fit in 64 bits (guaranteed by the Rust types). -/
def DKeyWf (k : DKey) : Prop :=
  k.pass.length < 2 ^ 64 ∧ k.salt.length < 2 ^ 64 ∧
    k.iters < 2 ^ 64 ∧ k.mem < 2 ^ 64

instance (k : DKey) : Decidable (DKeyWf k) := by
  unfold DKeyWf; infer_instance

theorem parseDKey_encodeDKey (k : DKey) (rest : List Nat) (hk : DKeyWf k) :
    parseDKey (encodeDKey k ++ rest) = some (k, rest) := by
  obtain ⟨h1, h2, h3, h4⟩ := hk
  simp [parseDKey, encodeDKey, List.append_assoc, readFix8_append _ _ h1,
    readN_append, readFix8_append _ _ h2, readFix8_append _ _ h3,
    readFix8_append _ _ h4]

/-- Model of `orion::aead::seal` (ideal): the blob is the redundancy-coded
injective encoding of the key followed by the plaintext. -/
def aeadSeal (key : DKey) (plaintext : List Nat) : List Nat :=
  dup (encodeDKey key ++ plaintext)

/-- Model of `orion::aead::open` (ideal): decode the redundancy coding,
recover the sealing key and plaintext, and release the plaintext only if
the sealing key equals the caller's key.  Fails closed otherwise. -/
def aeadOpen (key : DKey) (blob : List Nat) : Option (List Nat) :=
  (undup blob).bind fun bs =>
  (parseDKey bs).bind fun (k, pt) =>
  if k = key then some pt else none

theorem aeadOpen_aeadSeal (key : DKey) (pt : List Nat) (hk : DKeyWf key) :
    aeadOpen key (aeadSeal key pt) = some pt := by
  simp [aeadOpen, aeadSeal, undup_dup, parseDKey_encodeDKey key pt hk]

theorem aeadOpen_aeadSeal_ne (k k' : DKey) (pt : List Nat) (hk : DKeyWf k)
    (hne : k ≠ k') : aeadOpen k' (aeadSeal k pt) = none := by
  simp [aeadOpen, aeadSeal, undup_dup, parseDKey_encodeDKey k pt hk, hne]

/-- Flipping any single byte of a sealed blob makes `open` fail for every
key: the corruption is caught by the redundancy coding before any key
comparison, so no bytes are ever released. -/
theorem aeadOpen_set_ne (key : DKey) (pt : List Nat) (k' : DKey) (i b' : Nat)
    (hi : i < (aeadSeal key pt).length)
    (hb : b' ≠ (aeadSeal key pt).getD i 0) :
    aeadOpen k' ((aeadSeal key pt).set i b') = none := by
  simp only [aeadSeal] at hi hb ⊢
  simp [aeadOpen, undup_set_ne _ i b' hi hb]

/-! ## Base64 (model of `base64::engine::general_purpose::STANDARD`)

The standard alphabet with `=` padding, operating on ASCII codes.  Decoding
is strict (canonical padding, zero trailing bits), matching the crate's
default decode configuration. -/

/-- The standard base64 alphabet as ASCII codes: `A-Z a-z 0-9 + /`. -/
def b64alphabet : List Nat :=
  [65, 66, 67, 68, 69, 70, 71, 72, 73, 74, 75, 76, 77, 78, 79, 80, 81, 82,
   83, 84, 85, 86, 87, 88, 89, 90,
   97, 98, 99, 100, 101, 102, 103, 104, 105, 106, 107, 108, 109, 110, 111,
   112, 113, 114, 115, 116, 117, 118, 119, 120, 121, 122,
   48, 49, 50, 51, 52, 53, 54, 55, 56, 57, 43, 47]

/-- Sextet value to alphabet character. -/
def b64chr (s : Nat) : Nat := b64alphabet.getD s 0

/-- Alphabet character back to sextet value; `none` for characters outside
the alphabet (including the pad `=` 61). -/
def b64val (c : Nat) : Option Nat :=
  if 65 ≤ c ∧ c ≤ 90 then some (c - 65)
  else if 97 ≤ c ∧ c ≤ 122 then some (c - 71)
  else if 48 ≤ c ∧ c ≤ 57 then some (c + 4)
  else if c = 43 then some 62
  else if c = 47 then some 63
  else none

theorem b64val_b64chr : ∀ s < 64, b64val (b64chr s) = some s := by decide

theorem b64chr_ne_pad : ∀ s < 64, b64chr s ≠ 61 := by decide

/-- Base64-encode a byte list (`STANDARD.encode`), producing ASCII codes
with canonical `=` padding. -/
def b64encode : List Nat → List Nat
  | [] => []
  | [a] => [b64chr (a / 4), b64chr (a % 4 * 16), 61, 61]
  | [a, b] => [b64chr (a / 4), b64chr (a % 4 * 16 + b / 16),
               b64chr (b % 16 * 4), 61]
  | a :: b :: c :: rest =>
      [b64chr (a / 4), b64chr (a % 4 * 16 + b / 16),
       b64chr (b % 16 * 4 + c / 64), b64chr (c % 64)] ++ b64encode rest

/-- Base64-decode ASCII codes (`STANDARD.decode`): strict canonical
padding, rejects non-alphabet characters and set trailing bits. -/
def b64decode : List Nat → Option (List Nat)
  | [] => some []
  | c1 :: c2 :: c3 :: c4 :: rest =>
      (b64val c1).bind fun s1 =>
      (b64val c2).bind fun s2 =>
      if c3 = 61 then
        if c4 = 61 ∧ rest = [] then
          if s2 % 16 = 0 then some [s1 * 4 + s2 / 16] else none
        else none
      else
        (b64val c3).bind fun s3 =>
        if c4 = 61 then
          if rest = [] then
            if s3 % 4 = 0 then
              some [s1 * 4 + s2 / 16, s2 % 16 * 16 + s3 / 4]
            else none
          else none
        else
          (b64val c4).bind fun s4 =>
          (b64decode rest).map fun tail =>
            (s1 * 4 + s2 / 16) :: (s2 % 16 * 16 + s3 / 4) ::
              (s3 % 4 * 64 + s4) :: tail
  | _ => none

theorem b64decode_b64encode (bs : List Nat) (h : ∀ b ∈ bs, b < 256) :
    b64decode (b64encode bs) = some bs := by
  induction bs using b64encode.induct with
  | case1 => simp [b64encode, b64decode]
  | case2 a =>
    have ha : a < 256 := h a (by simp)
    have h1 := b64val_b64chr (a / 4) (by omega)
    have h2 := b64val_b64chr (a % 4 * 16) (by omega)
    have h3 := b64chr_ne_pad (a / 4) (by omega)
    have h4 := b64chr_ne_pad (a % 4 * 16) (by omega)
    simp only [b64encode, b64decode, h1, h2, Option.some_bind]
    have : a % 4 * 16 % 16 = 0 := by omega
    simp [this]
    omega
  | case3 a b =>
    have ha : a < 256 := h a (by simp)
    have hb : b < 256 := h b (by simp)
    have h1 := b64val_b64chr (a / 4) (by omega)
    have h2 := b64val_b64chr (a % 4 * 16 + b / 16) (by omega)
    have h3 := b64val_b64chr (b % 16 * 4) (by omega)
    have p2 := b64chr_ne_pad (b % 16 * 4) (by omega)
    have p1 := b64chr_ne_pad (a % 4 * 16 + b / 16) (by omega)
    simp only [b64encode, b64decode, h1, h2, h3, Option.some_bind,
      if_neg p2]
    have : b % 16 * 4 % 4 = 0 := by omega
    simp [this]
    constructor <;> omega
  | case4 a b c rest ih =>
    have ha : a < 256 := h a (by simp)
    have hb : b < 256 := h b (by simp)
    have hc : c < 256 := h c (by simp)
    have h1 := b64val_b64chr (a / 4) (by omega)
    have h2 := b64val_b64chr (a % 4 * 16 + b / 16) (by omega)
    have h3 := b64val_b64chr (b % 16 * 4 + c / 64) (by omega)
    have h4 := b64val_b64chr (c % 64) (by omega)
    have p1 := b64chr_ne_pad (b % 16 * 4 + c / 64) (by omega)
    have p2 := b64chr_ne_pad (c % 64) (by omega)
    have ih' := ih (fun x hx => h x (by simp [hx]))
    simp only [b64encode, List.cons_append, List.nil_append, b64decode,
      h1, h2, h3, h4, Option.some_bind, if_neg p1, if_neg p2]
    simp only [List.append_eq, List.nil_append]
    rw [ih']
    simp only [Option.map_some']
    refine congrArg some ?_
    refine List.cons_eq_cons.2 ⟨by omega, ?_⟩
    refine List.cons_eq_cons.2 ⟨by omega, ?_⟩
    exact List.cons_eq_cons.2 ⟨by omega, rfl⟩

/-! ## The record collection (`Vault`, `Store` from src/main.rs) -/

/-- One credential record (`struct Vault`). -/
structure Vault where
  id : Nat
  service : List Nat
  username : List Nat
  password : List Nat
deriving DecidableEq, Repr

/-- The in-memory collection (`struct Store`). -/
structure Store where
  next_id : Nat
  vault_items : List Vault
deriving DecidableEq, Repr

/-- A Rust byte string: length fits `usize`, entries are bytes. -/
def bytesWf (s : List Nat) : Prop := s.length < 2 ^ 64 ∧ ∀ b ∈ s, b < 256

instance (s : List Nat) : Decidable (bytesWf s) := by
  unfold bytesWf; infer_instance

/-- Well-formedness a `Vault` value enjoys by construction in Rust
(`usize` id, UTF-8 `String` fields). -/
def VaultWf (v : Vault) : Prop :=
  v.id < 2 ^ 64 ∧ bytesWf v.service ∧ bytesWf v.username ∧ bytesWf v.password

instance (v : Vault) : Decidable (VaultWf v) := by
  unfold VaultWf; infer_instance

/-- Well-formedness a `Store` value enjoys by construction in Rust. -/
def StoreWf (st : Store) : Prop :=
  st.next_id < 2 ^ 64 ∧ st.vault_items.length < 2 ^ 64 ∧
    ∀ v ∈ st.vault_items, VaultWf v

instance (st : Store) : Decidable (StoreWf st) := by
  unfold StoreWf
  exact instDecidableAnd

/-! ## Byte serialization of the collection

Model of `serde_json::to_vec(&store)` / `serde_json::from_slice` for the
plaintext sealed inside the blob.  The JSON text syntax is abstracted to an
injective length-framed byte serialization whose parser is its left
inverse and requires full consumption — the contract `encrypt_store` and
`decrypt_store` rely on. -/

/-- A length-framed byte-string field. -/
def serBytes (s : List Nat) : List Nat := fix8 s.length ++ s

/-- Serialize one record. -/
def serVault (v : Vault) : List Nat :=
  fix8 v.id ++ serBytes v.service ++ serBytes v.username ++
    serBytes v.password

/-- Serialize a record list. -/
def serVaults : List Vault → List Nat
  | [] => []
  | v :: rest => serVault v ++ serVaults rest

/-- Model of `serde_json::to_vec(&store)`. -/
def serializeStoreBytes (st : Store) : List Nat :=
  fix8 st.next_id ++ fix8 st.vault_items.length ++ serVaults st.vault_items

/-- Parse a length-framed byte-string field. -/
def parseBytesField (bs : List Nat) : Option (List Nat × List Nat) :=
  (readFix8 bs).bind fun (n, r) => readN n r

/-- Parse one record. -/
def parseVault (bs : List Nat) : Option (Vault × List Nat) :=
  (readFix8 bs).bind fun (i, r1) =>
  (parseBytesField r1).bind fun (sv, r2) =>
  (parseBytesField r2).bind fun (un, r3) =>
  (parseBytesField r3).map fun (pw, rest) => (⟨i, sv, un, pw⟩, rest)

/-- Parse a counted record list. -/
def parseVaults : Nat → List Nat → Option (List Vault × List Nat)
  | 0, bs => some ([], bs)
  | n + 1, bs =>
      (parseVault bs).bind fun (v, r) =>
      (parseVaults n r).map fun (vs, rest) => (v :: vs, rest)

/-- Model of `serde_json::from_slice::<Store>` on the sealed plaintext;
requires the input to be fully consumed. -/
def parseStoreBytes (bs : List Nat) : Option Store :=
  (readFix8 bs).bind fun (nid, r1) =>
  (readFix8 r1).bind fun (cnt, r2) =>
  (parseVaults cnt r2).bind fun (vs, rest) =>
  if rest = [] then some ⟨nid, vs⟩ else none

theorem parseBytesField_serBytes (s rest : List Nat) (h : s.length < 2 ^ 64) :
    parseBytesField (serBytes s ++ rest) = some (s, rest) := by
  simp [parseBytesField, serBytes, List.append_assoc, readFix8_append _ _ h,
    readN_append]

theorem parseVault_serVault (v : Vault) (rest : List Nat) (hv : VaultWf v) :
    parseVault (serVault v ++ rest) = some (v, rest) := by
  obtain ⟨h1, ⟨h2, _⟩, ⟨h3, _⟩, ⟨h4, _⟩⟩ := hv
  simp only [parseVault, serVault, List.append_assoc]
  rw [readFix8_append _ _ h1]
  simp only [Option.some_bind]
  rw [parseBytesField_serBytes _ _ h2]
  simp only [Option.some_bind]
  rw [parseBytesField_serBytes _ _ h3]
  simp only [Option.some_bind]
  rw [parseBytesField_serBytes _ _ h4]
  rfl

theorem parseVaults_serVaults (vs : List Vault) (rest : List Nat)
    (h : ∀ v ∈ vs, VaultWf v) :
    parseVaults vs.length (serVaults vs ++ rest) = some (vs, rest) := by
  induction vs generalizing rest with
  | nil => simp [parseVaults, serVaults]
  | cons v tl ih =>
    have hv : VaultWf v := h v (by simp)
    simp only [List.length_cons, serVaults, parseVaults, List.append_assoc]
    rw [parseVault_serVault v _ hv]
    simp only [Option.some_bind]
    rw [ih rest (fun x hx => h x (by simp [hx]))]
    rfl

theorem parseStoreBytes_serializeStoreBytes (st : Store) (h : StoreWf st) :
    parseStoreBytes (serializeStoreBytes st) = some st := by
  obtain ⟨h1, h2, h3⟩ := h
  simp only [parseStoreBytes, serializeStoreBytes, List.append_assoc]
  rw [readFix8_append _ _ h1]
  simp only [Option.some_bind]
  rw [readFix8_append _ _ h2]
  simp only [Option.some_bind]
  rw [show serVaults st.vault_items = serVaults st.vault_items ++ []
        from (List.append_nil _).symm,
      parseVaults_serVaults _ _ h3]
  rfl

theorem serBytes_lt (s : List Nat) (h : ∀ b ∈ s, b < 256) :
    ∀ b ∈ serBytes s, b < 256 := by
  intro b hb
  rcases List.mem_append.1 hb with h' | h'
  · exact fix8_lt _ _ h'
  · exact h b h'

theorem serVault_lt (v : Vault) (hv : VaultWf v) :
    ∀ b ∈ serVault v, b < 256 := by
  obtain ⟨_, ⟨_, h2⟩, ⟨_, h3⟩, ⟨_, h4⟩⟩ := hv
  intro b hb
  simp only [serVault, List.append_assoc, List.mem_append] at hb
  rcases hb with h' | h' | h' | h'
  · exact fix8_lt _ _ h'
  · exact serBytes_lt _ h2 _ h'
  · exact serBytes_lt _ h3 _ h'
  · exact serBytes_lt _ h4 _ h'

theorem serVaults_lt (vs : List Vault) (h : ∀ v ∈ vs, VaultWf v) :
    ∀ b ∈ serVaults vs, b < 256 := by
  induction vs with
  | nil => simp [serVaults]
  | cons v tl ih =>
    intro b hb
    rcases List.mem_append.1 hb with h' | h'
    · exact serVault_lt v (h v (by simp)) _ h'
    · exact ih (fun x hx => h x (by simp [hx])) _ h'

theorem serializeStoreBytes_lt (st : Store) (h : StoreWf st) :
    ∀ b ∈ serializeStoreBytes st, b < 256 := by
  obtain ⟨_, _, h3⟩ := h
  intro b hb
  simp only [serializeStoreBytes, List.append_assoc, List.mem_append] at hb
  rcases hb with h' | h' | h'
  · exact fix8_lt _ _ h'
  · exact fix8_lt _ _ h'
  · exact serVaults_lt _ h3 _ h'

/-! ## The encrypted container (`struct EncryptedFile`) and the codec
(`encrypt_store` / `decrypt_store` from src/main.rs) -/

/-- The on-disk container record (`struct EncryptedFile`): base64 text
fields hold the salt and sealed blob, plain numbers the KDF cost. -/
structure EncryptedFile where
  salt_b64 : List Nat
  kdf_iterations : Nat
  kdf_memory_kib : Nat
  blob_b64 : List Nat
deriving DecidableEq, Repr

/-- The failure conditions of the codec, one per fallible step of
`encrypt_store` / `decrypt_store` (anyhow contexts and orion errors). -/
inductive CryptoErr where
  /-- base64 decode of `salt_b64` failed (context `decoded_salt`). -/
  | decodedSalt
  /-- `Salt::from_slice` rejected the salt bytes. -/
  | saltFromSlice
  /-- base64 decode of `blob_b64` failed (context `decode_blob`). -/
  | decodeBlob
  /-- `Password::from_slice` rejected the passphrase bytes. -/
  | passwordFromSlice
  /-- `aead::open` failed: wrong passphrase or tampered ciphertext
  (context `decryption_failed`) — the authentication failure. -/
  | decryptionFailed
  /-- `serde_json::from_slice` on the decrypted plaintext failed
  (context `deserialize error`). -/
  | deserializeError
deriving DecidableEq, Repr

/-- Model of `orion::kdf::Password::from_slice`: rejects an empty
passphrase, per the primitive's lower bound. -/
def passwordFromSlice (bs : List Nat) : Option (List Nat) :=
  if bs = [] then none else some bs

/-- Model of `orion::kdf::Salt::from_slice`: the Argon2 salt is the fixed
16-byte length that `Salt::default()` generates. -/
def saltFromSlice (bs : List Nat) : Option (List Nat) :=
  if bs.length = 16 then some bs else none

/-- `encrypt_store` (src/main.rs:109): derive a key from the passphrase
with iterations = 3 and memory = `1 << 16` KiB, seal the serialized store,
and pack salt, cost parameters and blob into an `EncryptedFile`.
`Salt::default()` draws a fresh random 16-byte salt; that ambient
randomness is passed explicitly as the `salt` argument. -/
def encrypt_store (store : Store) (master : List Nat) (salt : List Nat) :
    Except CryptoErr EncryptedFile :=
  let iters := 3
  let memory_kib := 2 ^ 16
  match passwordFromSlice master with
  | none => .error .passwordFromSlice
  | some password =>
    let dk := derive_key password salt iters memory_kib
    let plaintext := serializeStoreBytes store
    let blob := aeadSeal dk plaintext
    .ok { salt_b64 := b64encode salt
          kdf_iterations := iters
          kdf_memory_kib := memory_kib
          blob_b64 := b64encode blob }

/-- `decrypt_store` (src/main.rs:130): decode salt and blob from base64,
re-derive the key from the caller's passphrase and the cost parameters
embedded in the container, open the blob, and parse the plaintext. -/
def decrypt_store (enc : EncryptedFile) (master : List Nat) :
    Except CryptoErr Store :=
  match b64decode enc.salt_b64 with
  | none => .error .decodedSalt
  | some salt_bytes =>
  match saltFromSlice salt_bytes with
  | none => .error .saltFromSlice
  | some salt =>
  match b64decode enc.blob_b64 with
  | none => .error .decodeBlob
  | some blob =>
  match passwordFromSlice master with
  | none => .error .passwordFromSlice
  | some password =>
  let dk := derive_key password salt enc.kdf_iterations enc.kdf_memory_kib
  match aeadOpen dk blob with
  | none => .error .decryptionFailed
  | some plaintext =>
  match parseStoreBytes plaintext with
  | none => .error .deserializeError
  | some store => .ok store

/-- Well-formed passphrase bytes: nonempty (orion's lower bound) and a
real Rust byte string. -/
def passWf (p : List Nat) : Prop :=
  p ≠ [] ∧ p.length < 2 ^ 64 ∧ ∀ b ∈ p, b < 256

instance (p : List Nat) : Decidable (passWf p) := by
  unfold passWf; infer_instance

/-- Well-formed salt bytes: what `Salt::default()` generates. -/
def saltWf (s : List Nat) : Prop := s.length = 16 ∧ ∀ b ∈ s, b < 256

instance (s : List Nat) : Decidable (saltWf s) := by
  unfold saltWf; infer_instance

theorem dup_lt (xs : List Nat) :
    (∀ b ∈ xs, b < 256) → ∀ b ∈ dup xs, b < 256 := by
  induction xs with
  | nil => simp [dup]
  | cons x rest ih =>
    intro h b hb
    simp only [dup, List.mem_cons] at hb
    rcases hb with h' | h' | h'
    · subst h'; exact h b (by simp)
    · subst h'; exact h b (by simp)
    · exact ih (fun y hy => h y (by simp [hy])) b h'

theorem encodeDKey_lt (k : DKey) (hp : ∀ b ∈ k.pass, b < 256)
    (hs : ∀ b ∈ k.salt, b < 256) : ∀ b ∈ encodeDKey k, b < 256 := by
  intro b hb
  simp only [encodeDKey, List.append_assoc, List.mem_append] at hb
  rcases hb with h' | h' | h' | h' | h' | h'
  · exact fix8_lt _ _ h'
  · exact hp b h'
  · exact fix8_lt _ _ h'
  · exact hs b h'
  · exact fix8_lt _ _ h'
  · exact fix8_lt _ _ h'

theorem aeadSeal_lt (k : DKey) (pt : List Nat) (hp : ∀ b ∈ k.pass, b < 256)
    (hs : ∀ b ∈ k.salt, b < 256) (hpt : ∀ b ∈ pt, b < 256) :
    ∀ b ∈ aeadSeal k pt, b < 256 := by
  refine dup_lt _ ?_
  intro b hb
  rcases List.mem_append.1 hb with h' | h'
  · exact encodeDKey_lt k hp hs b h'
  · exact hpt b h'

/-- The encrypt/decrypt round trip at the container level: decrypting an
`encrypt_store` output under the same passphrase recovers the store. -/
theorem decrypt_encrypt_roundtrip (st : Store) (p s : List Nat)
    (hp : passWf p) (hs : saltWf s) (hst : StoreWf st) :
    (encrypt_store st p s).bind (fun e => decrypt_store e p) = .ok st := by
  obtain ⟨hp0, hp1, hp2⟩ := hp
  obtain ⟨hs1, hs2⟩ := hs
  have hkey : DKeyWf (derive_key p s 3 (2 ^ 16)) := by
    refine ⟨?_, ?_, ?_, ?_⟩ <;> simp only [derive_key] <;> omega
  have hblob : ∀ b ∈ aeadSeal (derive_key p s 3 (2 ^ 16))
      (serializeStoreBytes st), b < 256 :=
    aeadSeal_lt _ _ hp2 hs2 (serializeStoreBytes_lt st hst)
  have e1 : b64decode (b64encode s) = some s := b64decode_b64encode s hs2
  have e2 : saltFromSlice s = some s := by simp [saltFromSlice, hs1]
  have e3 := b64decode_b64encode _ hblob
  have e4 := aeadOpen_aeadSeal (derive_key p s 3 (2 ^ 16))
    (serializeStoreBytes st) hkey
  have e5 := parseStoreBytes_serializeStoreBytes st hst
  simp only [encrypt_store, passwordFromSlice, if_neg hp0, Except.bind,
    decrypt_store, e1, e2, e3, e4, e5]

/-- Opening under a different passphrase is an authentication failure:
the derived keys differ, `aead::open` fails closed, and `decrypt_store`
reports `decryption_failed`. -/
theorem decrypt_encrypt_wrong_pass (st : Store) (pA pB s : List Nat)
    (hpA : passWf pA) (hpB0 : pB ≠ []) (hs : saltWf s) (hst : StoreWf st)
    (hne : pA ≠ pB) :
    (encrypt_store st pA s).bind (fun e => decrypt_store e pB) =
      .error .decryptionFailed := by
  obtain ⟨hpA0, hpA1, hpA2⟩ := hpA
  obtain ⟨hs1, hs2⟩ := hs
  have hkey : DKeyWf (derive_key pA s 3 (2 ^ 16)) := by
    refine ⟨?_, ?_, ?_, ?_⟩ <;> simp only [derive_key] <;> omega
  have hblob : ∀ b ∈ aeadSeal (derive_key pA s 3 (2 ^ 16))
      (serializeStoreBytes st), b < 256 :=
    aeadSeal_lt _ _ hpA2 hs2 (serializeStoreBytes_lt st hst)
  have e1 : b64decode (b64encode s) = some s := b64decode_b64encode s hs2
  have e2 : saltFromSlice s = some s := by simp [saltFromSlice, hs1]
  have e3 := b64decode_b64encode _ hblob
  have e4 : aeadOpen (derive_key pB s 3 (2 ^ 16))
      (aeadSeal (derive_key pA s 3 (2 ^ 16)) (serializeStoreBytes st)) =
        none :=
    aeadOpen_aeadSeal_ne _ _ _ hkey
      (by intro h; exact hne (congrArg DKey.pass h))
  simp only [encrypt_store, passwordFromSlice, if_neg hpA0, Except.bind,
    decrypt_store, if_neg hpB0, e1, e2, e3, e4]

/-! ## JSON values (model of the `serde_json` document layer)

The on-disk file is JSON text.  The text syntax is abstracted to the value
tree; field access follows serde's semantics: fields are matched by name in
any order, unknown fields are ignored, missing or ill-typed required
fields are a parse error, and integers must fit the declared Rust width. -/

/-- A JSON value (strings carry their byte content). -/
inductive Json where
  | str (s : List Nat)
  | num (n : Nat)
  | arr (xs : List Json)
  | obj (fields : List (String × Json))
deriving BEq, Repr

/-- Object field lookup by name (first occurrence, serde-style). -/
def jLookup (fields : List (String × Json)) (key : String) : Option Json :=
  (fields.find? (fun f => f.1 = key)).map (·.2)

/-- `serde_json::from_*::<EncryptedFile>` at the value level. -/
def parseEncFromJson : Json → Option EncryptedFile
  | .obj fs =>
      match jLookup fs "salt_b64", jLookup fs "kdf_iterations",
            jLookup fs "kdf_memory_kib", jLookup fs "blob_b64" with
      | some (.str s), some (.num it), some (.num mem), some (.str b) =>
          if it < 2 ^ 32 ∧ mem < 2 ^ 32 then some ⟨s, it, mem, b⟩ else none
      | _, _, _, _ => none
  | _ => none

/-- One record of `serde_json::from_*::<Store>` at the value level. -/
def parseVaultFromJson : Json → Option Vault
  | .obj fs =>
      match jLookup fs "id", jLookup fs "service",
            jLookup fs "username", jLookup fs "password" with
      | some (.num i), some (.str sv), some (.str un), some (.str pw) =>
          if i < 2 ^ 64 then some ⟨i, sv, un, pw⟩ else none
      | _, _, _, _ => none
  | _ => none

/-- Element-wise record-array parsing. -/
def parseVaultsFromJson : List Json → Option (List Vault)
  | [] => some []
  | j :: rest =>
      (parseVaultFromJson j).bind fun v =>
      (parseVaultsFromJson rest).map (v :: ·)

/-- `serde_json::from_*::<Store>` at the value level. -/
def parseStoreFromJson : Json → Option Store
  | .obj fs =>
      match jLookup fs "next_id", jLookup fs "vault_items" with
      | some (.num nid), some (.arr items) =>
          if nid < 2 ^ 64 then (parseVaultsFromJson items).map (⟨nid, ·⟩)
          else none
      | _, _ => none
  | _ => none

/-- `serde_json` serialization of a record (declaration field order). -/
def vaultToJson (v : Vault) : Json :=
  .obj [("id", .num v.id), ("service", .str v.service),
        ("username", .str v.username), ("password", .str v.password)]

/-- `serde_json` serialization of the bare collection — the legacy
unencrypted on-disk format, and the plaintext layout inside the blob. -/
def storeToJson (st : Store) : Json :=
  .obj [("next_id", .num st.next_id),
        ("vault_items", .arr (st.vault_items.map vaultToJson))]

/-- `serde_json::to_vec_pretty(&enc)` at the value level: the container
document written by `Store::save`. -/
def encFileToJson (e : EncryptedFile) : Json :=
  .obj [("salt_b64", .str e.salt_b64),
        ("kdf_iterations", .num e.kdf_iterations),
        ("kdf_memory_kib", .num e.kdf_memory_kib),
        ("blob_b64", .str e.blob_b64)]

theorem parseVaultFromJson_vaultToJson (v : Vault) (h : v.id < 2 ^ 64) :
    parseVaultFromJson (vaultToJson v) = some v := by
  simp only [parseVaultFromJson, vaultToJson, jLookup, List.find?]
  simp
  omega

theorem parseVaultsFromJson_map (vs : List Vault)
    (h : ∀ v ∈ vs, v.id < 2 ^ 64) :
    parseVaultsFromJson (vs.map vaultToJson) = some vs := by
  induction vs with
  | nil => rfl
  | cons v tl ih =>
    simp only [List.map_cons, parseVaultsFromJson,
      parseVaultFromJson_vaultToJson v (h v (by simp)), Option.some_bind,
      ih (fun x hx => h x (by simp [hx])), Option.map_some']

theorem parseStoreFromJson_storeToJson (st : Store)
    (h1 : st.next_id < 2 ^ 64) (h2 : ∀ v ∈ st.vault_items, v.id < 2 ^ 64) :
    parseStoreFromJson (storeToJson st) = some st := by
  simp [parseStoreFromJson, storeToJson, jLookup, List.find?,
    parseVaultsFromJson_map st.vault_items h2]
  omega

theorem parseEncFromJson_encFileToJson (e : EncryptedFile)
    (h1 : e.kdf_iterations < 2 ^ 32) (h2 : e.kdf_memory_kib < 2 ^ 32) :
    parseEncFromJson (encFileToJson e) = some e := by
  simp [parseEncFromJson, encFileToJson, jLookup, List.find?]
  omega

/-- A bare (legacy) document is structurally not a container: it has no
`salt_b64` field, so the `EncryptedFile` parse fails. -/
theorem parseEncFromJson_storeToJson (st : Store) :
    parseEncFromJson (storeToJson st) = none := by
  simp [parseEncFromJson, storeToJson, jLookup, List.find?]

/-- A container document is structurally not a bare collection: it has no
`next_id` field, so the `Store` parse fails. -/
theorem parseStoreFromJson_encFileToJson (e : EncryptedFile) :
    parseStoreFromJson (encFileToJson e) = none := by
  simp [parseStoreFromJson, encFileToJson, jLookup, List.find?]

/-! ## The db file and `Store::load` (src/main.rs:41) -/

/-- The content of the db file at the granularity serde observes: an empty
file (zero bytes), bytes that are not a JSON document, or a JSON
document. -/
inductive FileContent where
  | emptyFile
  | notJson
  | jsonVal (j : Json)
deriving BEq, Repr

/-- The observable state of the db path for one `load`: whether the path
exists, whether `File::open` succeeds, and the file's content.  The
process is single-threaded, so the two `File::open` calls inside `load`
see the same state. -/
structure FileState where
  pathExists : Bool
  openOk : Bool
  content : FileContent
deriving Repr

/-- `serde_json::from_reader::<_, EncryptedFile>` over the file bytes:
fails on an empty or non-JSON file, else parses the document. -/
def readEncryptedFile : FileContent → Option EncryptedFile
  | .jsonVal j => parseEncFromJson j
  | _ => none

/-- `serde_json::from_reader::<_, Store>` over the file bytes (the legacy
bare format). -/
def readBareStore : FileContent → Option Store
  | .jsonVal j => parseStoreFromJson j
  | _ => none

/-- `Store::load` (src/main.rs:41): missing path or failed open yield a
fresh default; a container document is decrypted, with *any* decryption
error printed to stderr and replaced by a fresh default; a non-container
file is re-opened and parsed as a bare legacy `Store`, any failure again
replaced by a fresh default.  The function's return type is `Store`:
no error variant reaches the caller. -/
def Store.load (fs : FileState) (master : List Nat) : Store :=
  if fs.pathExists = false then ⟨1, []⟩
  else if fs.openOk = false then ⟨1, []⟩
  else
    match readEncryptedFile fs.content with
    | some enc =>
        match decrypt_store enc master with
        | .ok st => st
        | .error _ => ⟨1, []⟩
    | none =>
        match readBareStore fs.content with
        | some st => st
        | none => ⟨1, []⟩

/-! ## `Store::save` (src/main.rs:85): temp file, flush, rename -/

/-- The two paths `save` touches: the destination `path` and the sibling
temporary `path.with_extension("json.tmp")`.  `none` means absent. -/
structure FS where
  dest : Option FileContent
  tmp : Option FileContent
deriving Repr

/-- Which of save's I/O syscalls succeed in this run. -/
structure IoEnv where
  createOk : Bool
  writeOk : Bool
  renameOk : Bool
deriving Repr

/-- `Store::save`'s error outcomes: the encryption error wrapped as an
I/O error by `map_err`, or the failing syscall's error propagated by `?`. -/
inductive SaveErr where
  | encrypt (e : CryptoErr)
  | ioCreate
  | ioWrite
  | ioRename
deriving DecidableEq, Repr

/-- `Store::save` (src/main.rs:85) with explicit I/O outcomes: encrypt,
serialize, `File::create` the temp path, `write_all` + `flush` the bytes,
`fs::rename` the temp path onto the destination.  Every failure aborts
with an error; the destination is only touched by the final rename. -/
def Store.save (st : Store) (master salt : List Nat) (env : IoEnv)
    (fs : FS) : Except SaveErr Unit × FS :=
  match encrypt_store st master salt with
  | .error e => (.error (.encrypt e), fs)
  | .ok enc =>
    if env.createOk = false then (.error .ioCreate, fs)
    else
      let fs1 : FS := { fs with tmp := some .emptyFile }
      if env.writeOk = false then (.error .ioWrite, fs1)
      else
        let fs2 : FS := { fs1 with tmp := some (.jsonVal (encFileToJson enc)) }
        if env.renameOk = false then (.error .ioRename, fs2)
        else (.ok (), { dest := fs2.tmp, tmp := none })

/-- The syscall sequence of a successful `save` after encryption, for
crash analysis: create temp (truncating), write+flush bytes into temp,
flush (touches no path content), rename temp onto destination. -/
def saveSteps (enc : EncryptedFile) : List (FS → FS) :=
  [fun fs => { fs with tmp := some .emptyFile },
   fun fs => { fs with tmp := some (.jsonVal (encFileToJson enc)) },
   fun fs => fs,
   fun fs => { dest := fs.tmp, tmp := none }]

/-- Run the first `k` syscalls of the sequence (a crash after `k` steps
leaves exactly this state). -/
def runSteps (steps : List (FS → FS)) (fs : FS) : FS :=
  steps.foldl (fun s f => f s) fs

/-! ## The CRUD commands (`Commands::Add` / `Commands::Remove`,
src/main.rs:178) -/

/-- One invocation's mutation. -/
inductive Cmd where
  | add (service username password : List Nat)
  | remove (id : Nat)
deriving DecidableEq, Repr

/-- Apply one command to the collection, as `main` does: `Add` takes
`id = next_id`, increments `next_id` and pushes the record; `Remove`
deletes the first record with the given id, if any, and never touches
`next_id`. -/
def Store.applyCmd (st : Store) : Cmd → Store
  | .add sv un pw =>
      { next_id := st.next_id + 1,
        vault_items := st.vault_items ++ [⟨st.next_id, sv, un, pw⟩] }
  | .remove i =>
      { st with vault_items := st.vault_items.eraseP (fun v => v.id == i) }

/-- Run a command sequence, also returning the list of ids issued by the
`add`s, in order. -/
def runCmds (st : Store) : List Cmd → Store × List Nat
  | [] => (st, [])
  | .add sv un pw :: rest =>
      let r := runCmds (st.applyCmd (.add sv un pw)) rest
      (r.1, st.next_id :: r.2)
  | .remove i :: rest => runCmds (st.applyCmd (.remove i)) rest

/-- Number of `add` commands in a sequence. -/
def countAdds : List Cmd → Nat
  | [] => 0
  | .add _ _ _ :: rest => countAdds rest + 1
  | .remove _ :: rest => countAdds rest

theorem runCmds_next_id (cmds : List Cmd) (st : Store) :
    (runCmds st cmds).1.next_id = st.next_id + countAdds cmds := by
  induction cmds generalizing st with
  | nil => simp [runCmds, countAdds]
  | cons c rest ih =>
    cases c with
    | add sv un pw =>
      simp only [runCmds, countAdds, ih]
      simp [Store.applyCmd]
      omega
    | remove i =>
      simp only [runCmds, countAdds, ih]
      simp [Store.applyCmd]

theorem runCmds_issued (cmds : List Cmd) (st : Store) :
    (runCmds st cmds).2 = List.range' st.next_id (countAdds cmds) := by
  induction cmds generalizing st with
  | nil => simp [runCmds, countAdds]
  | cons c rest ih =>
    cases c with
    | add sv un pw =>
      simp only [runCmds, countAdds, ih]
      rw [List.range'_succ]
      simp [Store.applyCmd]
    | remove i =>
      simp only [runCmds, countAdds, ih]
      simp [Store.applyCmd]

/-- The id bookkeeping invariant: every stored id is below `next_id`, and
stored ids are pairwise distinct. -/
def idsOk (st : Store) : Prop :=
  (∀ v ∈ st.vault_items, v.id < st.next_id) ∧
    (st.vault_items.map Vault.id).Nodup

theorem idsOk_applyCmd (st : Store) (c : Cmd) (h : idsOk st) :
    idsOk (st.applyCmd c) := by
  obtain ⟨h1, h2⟩ := h
  cases c with
  | add sv un pw =>
    refine ⟨?_, ?_⟩
    · intro v hv
      simp only [Store.applyCmd] at hv ⊢
      rcases List.mem_append.1 hv with h' | h'
      · exact Nat.lt_succ_of_lt (h1 v h')
      · simp only [List.mem_singleton] at h'
        subst h'
        exact Nat.lt_succ_self _
    · simp only [Store.applyCmd, List.map_append, List.map_cons,
        List.map_nil]
      rw [List.nodup_append]
      refine ⟨h2, List.nodup_singleton _, ?_⟩
      intro a ha hb
      simp only [List.mem_singleton] at hb
      subst hb
      obtain ⟨v, hv, hva⟩ := List.mem_map.1 ha
      exact absurd (hva ▸ h1 v hv) (lt_irrefl _)
  | remove i =>
    refine ⟨?_, ?_⟩
    · intro v hv
      exact h1 v ((List.eraseP_sublist _).subset hv)
    · exact h2.sublist ((List.eraseP_sublist _).map _)

theorem idsOk_runCmds (cmds : List Cmd) (st : Store) (h : idsOk st) :
    idsOk (runCmds st cmds).1 := by
  induction cmds generalizing st with
  | nil => exact h
  | cons c rest ih =>
    cases c with
    | add sv un pw => exact ih _ (idsOk_applyCmd st _ h)
    | remove i => exact ih _ (idsOk_applyCmd st _ h)

theorem foldr_max_range' (k a : Nat) :
    (List.range' a k).foldr max 0 = if k = 0 then 0 else a + k - 1 := by
  induction k generalizing a with
  | zero => simp
  | succ n ih =>
    rw [List.range'_succ]
    simp only [List.foldr_cons, ih (a + 1)]
    rcases Nat.eq_zero_or_pos n with h | h
    · subst h; simp
    · have hne : n ≠ 0 := Nat.pos_iff_ne_zero.mp h
      simp only [hne, if_false, Nat.succ_ne_zero]
      omega

/-- With a nonempty passphrase, `encrypt_store` succeeds and its output is
this container. -/
theorem encrypt_store_eq (st : Store) (p s : List Nat) (hp0 : p ≠ []) :
    encrypt_store st p s = .ok ⟨b64encode s, 3, 2 ^ 16,
      b64encode (aeadSeal (derive_key p s 3 (2 ^ 16))
        (serializeStoreBytes st))⟩ := by
  simp [encrypt_store, passwordFromSlice, hp0]

/-- Decrypting a container that embeds arbitrary cost parameters and a
blob sealed under the key derived from those same embedded parameters
recovers the store: `decrypt_store` honors exactly the salt and cost
stored in the container it reads. -/
theorem decrypt_store_sealed (st : Store) (p s : List Nat)
    (iters mem : Nat) (hp : passWf p) (hs : saltWf s) (hst : StoreWf st)
    (hit : iters < 2 ^ 64) (hm : mem < 2 ^ 64) :
    decrypt_store
      ⟨b64encode s, iters, mem,
       b64encode (aeadSeal (derive_key p s iters mem)
         (serializeStoreBytes st))⟩ p = .ok st := by
  obtain ⟨hp0, hp1, hp2⟩ := hp
  obtain ⟨hs1, hs2⟩ := hs
  have hkey : DKeyWf (derive_key p s iters mem) := by
    refine ⟨?_, ?_, ?_, ?_⟩ <;> simp only [derive_key] <;> omega
  have hblob : ∀ b ∈ aeadSeal (derive_key p s iters mem)
      (serializeStoreBytes st), b < 256 :=
    aeadSeal_lt _ _ hp2 hs2 (serializeStoreBytes_lt st hst)
  have e1 : b64decode (b64encode s) = some s := b64decode_b64encode s hs2
  have e2 : saltFromSlice s = some s := by simp [saltFromSlice, hs1]
  have e3 := b64decode_b64encode _ hblob
  have e4 := aeadOpen_aeadSeal (derive_key p s iters mem)
    (serializeStoreBytes st) hkey
  have e5 := parseStoreBytes_serializeStoreBytes st hst
  simp only [decrypt_store, e1, e2, e3, passwordFromSlice, if_neg hp0,
    e4, e5]

/-! ## Concrete sample values used by the witnesses -/

/-- A small sample collection: one record, `next_id` already at 2. -/
def sampleStore : Store := ⟨2, [⟨1, [103, 104], [97, 108], [112, 64, 115]⟩]⟩

/-- A sample salt of the shape `Salt::default()` produces. -/
def sampleSalt : List Nat := List.replicate 16 0

/-- A sample container value. -/
def sampleEnc : EncryptedFile := ⟨[], 3, 65536, []⟩

/-! ## The claims -/

/-- C2: for every collection and every non-empty passphrase, encrypting
with `encrypt_store` and decrypting the result with `decrypt_store` under
the same passphrase returns a collection equal field-for-field to the
original (same `next_id`, same record sequence). -/
theorem claim_C2_roundtrip (st : Store) (p s : List Nat)
    (hp : passWf p) (hs : saltWf s) (hst : StoreWf st) :
    (encrypt_store st p s).bind (fun e => decrypt_store e p) = .ok st :=
  decrypt_encrypt_roundtrip st p s hp hs hst

theorem claim_C2_roundtrip_witness :
    passWf [65] ∧ saltWf sampleSalt ∧ StoreWf sampleStore ∧
    (encrypt_store sampleStore [65] sampleSalt).bind
      (fun e => decrypt_store e [65]) = .ok sampleStore :=
  ⟨by decide, by decide, by decide,
   claim_C2_roundtrip sampleStore [65] sampleSalt (by decide) (by decide)
     (by decide)⟩

/-- C7: save is atomic: the syscall sequence writes the container bytes to
the sibling temporary path, flushes, then renames onto the destination;
after any strict prefix of the sequence (an interruption before the
rename) the destination holds its previous content unchanged, the full
sequence leaves the new container at the destination, and at every prefix
the destination holds either the old or the new content — never an
intermediate state. -/
theorem claim_C7_atomic_save (enc : EncryptedFile) (fs : FS) (k : Nat)
    (hk : k ≤ 3) :
    (runSteps ((saveSteps enc).take k) fs).dest = fs.dest ∧
    (runSteps (saveSteps enc) fs).dest =
      some (.jsonVal (encFileToJson enc)) ∧
    (∀ j, (runSteps ((saveSteps enc).take j) fs).dest = fs.dest ∨
      (runSteps ((saveSteps enc).take j) fs).dest =
        some (.jsonVal (encFileToJson enc))) := by
  refine ⟨?_, rfl, ?_⟩
  · interval_cases k <;> rfl
  · intro j
    match j with
    | 0 => exact Or.inl rfl
    | 1 => exact Or.inl rfl
    | 2 => exact Or.inl rfl
    | 3 => exact Or.inl rfl
    | Nat.succ (Nat.succ (Nat.succ (Nat.succ m))) =>
      exact Or.inr (by simp [saveSteps, runSteps, List.take_succ_cons])

theorem claim_C7_atomic_save_witness :
    (2 : Nat) ≤ 3 ∧
    ((runSteps ((saveSteps sampleEnc).take 2) ⟨some .notJson, none⟩).dest =
        (⟨some .notJson, none⟩ : FS).dest ∧
      (runSteps (saveSteps sampleEnc) ⟨some .notJson, none⟩).dest =
        some (.jsonVal (encFileToJson sampleEnc)) ∧
      (∀ j, (runSteps ((saveSteps sampleEnc).take j)
          ⟨some .notJson, none⟩).dest =
            (⟨some .notJson, none⟩ : FS).dest ∨
        (runSteps ((saveSteps sampleEnc).take j)
          ⟨some .notJson, none⟩).dest =
            some (.jsonVal (encFileToJson sampleEnc)))) :=
  ⟨by decide, claim_C7_atomic_save sampleEnc ⟨some .notJson, none⟩ 2
    (by decide)⟩

/-- C8: when the path does not exist, or the file exists but is empty,
`load` returns a fresh collection with `next_id = 1` and no records — as
a normal `Store` value (the function's return type has no error case). -/
theorem claim_C8_first_use (master : List Nat) (b : Bool)
    (c : FileContent) :
    Store.load ⟨false, b, c⟩ master = ⟨1, []⟩ ∧
    Store.load ⟨true, true, .emptyFile⟩ master = ⟨1, []⟩ ∧
    (⟨1, []⟩ : Store).next_id = 1 ∧
    (⟨1, []⟩ : Store).vault_items = [] := by
  refine ⟨by simp [Store.load], ?_, rfl, rfl⟩
  simp [Store.load, readEncryptedFile, readBareStore]

/-- C4: from a fresh collection, after any sequence of add/remove
commands: `next_id` is one plus the largest id ever issued, no id was
issued twice (so removal never causes reuse), the stored records carry
pairwise distinct ids, and no continuation ever decreases `next_id`. -/
theorem claim_C4_id_monotonic (cmds : List Cmd) :
    (runCmds ⟨1, []⟩ cmds).1.next_id =
        (runCmds ⟨1, []⟩ cmds).2.foldr max 0 + 1 ∧
    (runCmds ⟨1, []⟩ cmds).2.Nodup ∧
    ((runCmds ⟨1, []⟩ cmds).1.vault_items.map Vault.id).Nodup ∧
    (∀ more : List Cmd,
      (runCmds ⟨1, []⟩ cmds).1.next_id ≤
        (runCmds (runCmds ⟨1, []⟩ cmds).1 more).1.next_id) := by
  have h1 := runCmds_next_id cmds ⟨1, []⟩
  have h2 := runCmds_issued cmds ⟨1, []⟩
  have h3 := idsOk_runCmds cmds ⟨1, []⟩ ⟨by simp, by simp⟩
  refine ⟨?_, ?_, h3.2, ?_⟩
  · simp only [h1, h2, foldr_max_range']
    split <;> omega
  · rw [h2]
    exact List.nodup_range' _ _
  · intro more
    have h4 := runCmds_next_id more (runCmds ⟨1, []⟩ cmds).1
    omega

/-- C3: opening fails closed.  Sealing under passphrase `pA` and running
`decrypt_store` under any distinct passphrase `pB` is exactly the
authentication failure (`decryption_failed`), and flipping any single
byte of the sealed blob's base64-decoded bytes makes `aead::open` fail
for every key — so for every passphrase; in neither case are any
partially-decrypted or unauthenticated bytes returned. -/
theorem claim_C3_fail_closed (st : Store) (pA pB s : List Nat)
    (hpA : passWf pA) (hpB : pB ≠ []) (hs : saltWf s) (hst : StoreWf st) :
    (pA ≠ pB →
      (encrypt_store st pA s).bind (fun e => decrypt_store e pB) =
        .error .decryptionFailed) ∧
    (∀ e, encrypt_store st pA s = .ok e →
      ∀ blob, b64decode e.blob_b64 = some blob →
        ∀ i b', i < blob.length → b' ≠ blob.getD i 0 →
          ∀ key, aeadOpen key (blob.set i b') = none) := by
  obtain ⟨hpA0, hpA1, hpA2⟩ := hpA
  obtain ⟨hs1, hs2⟩ := hs
  constructor
  · intro hne
    exact decrypt_encrypt_wrong_pass st pA pB s ⟨hpA0, hpA1, hpA2⟩ hpB
      ⟨hs1, hs2⟩ hst hne
  · intro e he blob hblob i b' hi hb key
    rw [encrypt_store_eq st pA s hpA0] at he
    injection he with he
    subst he
    have hbytes : ∀ b ∈ aeadSeal (derive_key pA s 3 (2 ^ 16))
        (serializeStoreBytes st), b < 256 :=
      aeadSeal_lt _ _ hpA2 hs2 (serializeStoreBytes_lt st hst)
    rw [show (⟨b64encode s, 3, 2 ^ 16,
          b64encode (aeadSeal (derive_key pA s 3 (2 ^ 16))
            (serializeStoreBytes st))⟩ : EncryptedFile).blob_b64 =
        b64encode (aeadSeal (derive_key pA s 3 (2 ^ 16))
          (serializeStoreBytes st)) from rfl,
      b64decode_b64encode _ hbytes] at hblob
    injection hblob with hblob
    subst hblob
    exact aeadOpen_set_ne _ _ key i b' hi hb

theorem claim_C3_fail_closed_witness :
    passWf [65] ∧ ([66] : List Nat) ≠ [] ∧ saltWf sampleSalt ∧
    StoreWf sampleStore ∧
    ((([65] : List Nat) ≠ [66] →
      (encrypt_store sampleStore [65] sampleSalt).bind
        (fun e => decrypt_store e [66]) = .error .decryptionFailed) ∧
    (∀ e, encrypt_store sampleStore [65] sampleSalt = .ok e →
      ∀ blob, b64decode e.blob_b64 = some blob →
        ∀ i b', i < blob.length → b' ≠ blob.getD i 0 →
          ∀ key, aeadOpen key (blob.set i b') = none)) :=
  ⟨by decide, by decide, by decide, by decide,
   claim_C3_fail_closed sampleStore [65] [66] sampleSalt (by decide)
     (by decide) (by decide) (by decide)⟩

/-- C1: the claim fails on the code.  When decryption of a stored
container fails with the authentication failure (wrong passphrase),
`Store::load` prints the error to stderr and returns a *fresh empty
collection* `⟨1, []⟩` as its ordinary `Store` return value — the
distinguishable `WrongPassphraseOrCorrupt` condition required by the
specification never reaches the caller.  The second conjunct pins the
underlying condition: the decryption outcome is exactly the
authentication failure that the specification says must be surfaced. -/
theorem claim_C1_wrong_pass_coerced (st : Store) (pA pB s : List Nat)
    (hpA : passWf pA) (hpB : pB ≠ []) (hs : saltWf s) (hst : StoreWf st)
    (hne : pA ≠ pB) :
    (encrypt_store st pA s).map (fun e =>
        Store.load ⟨true, true, .jsonVal (encFileToJson e)⟩ pB) =
      .ok ⟨1, []⟩ ∧
    (encrypt_store st pA s).bind (fun e => decrypt_store e pB) =
      .error .decryptionFailed := by
  obtain ⟨hpA0, hpA1, hpA2⟩ := hpA
  have hwrong := decrypt_encrypt_wrong_pass st pA pB s ⟨hpA0, hpA1, hpA2⟩
    hpB hs hst hne
  refine ⟨?_, hwrong⟩
  rw [encrypt_store_eq st pA s hpA0] at hwrong ⊢
  simp only [Except.bind] at hwrong
  simp only [Except.map]
  refine congrArg Except.ok ?_
  have hparse := parseEncFromJson_encFileToJson
    ⟨b64encode s, 3, 2 ^ 16,
     b64encode (aeadSeal (derive_key pA s 3 (2 ^ 16))
       (serializeStoreBytes st))⟩ (by norm_num) (by norm_num)
  simp only [Store.load, readEncryptedFile, hparse, hwrong]
  rfl

theorem claim_C1_wrong_pass_coerced_witness :
    passWf [65] ∧ ([66] : List Nat) ≠ [] ∧ saltWf sampleSalt ∧
    StoreWf sampleStore ∧ ([65] : List Nat) ≠ [66] ∧
    ((encrypt_store sampleStore [65] sampleSalt).map (fun e =>
        Store.load ⟨true, true, .jsonVal (encFileToJson e)⟩ [66]) =
      .ok ⟨1, []⟩ ∧
    (encrypt_store sampleStore [65] sampleSalt).bind
      (fun e => decrypt_store e [66]) = .error .decryptionFailed) :=
  ⟨by decide, by decide, by decide, by decide, by decide,
   claim_C1_wrong_pass_coerced sampleStore [65] [66] sampleSalt
     (by decide) (by decide) (by decide) (by decide) (by decide)⟩

/-- C5, counterexample to the claim as stated: at the concrete input where
the db path exists but `File::open` fails, `Store::load` silently returns
a fresh empty collection instead of propagating the I/O error. -/
theorem claim_C5_load_swallows_open_error :
    Store.load ⟨true, false, .notJson⟩ [65] = ⟨1, []⟩ := by decide

/-- C5 as amended: `Store::save` propagates every I/O failure
(create/write/rename) to the caller and aborts with the destination
untouched; `Store::load`, however, does not propagate an open failure on
an existing path — it silently substitutes a fresh empty collection. -/
theorem claim_C5_io_errors (st : Store) (p s : List Nat) (env : IoEnv)
    (fs : FS) (hp0 : p ≠ []) :
    ((Store.save st p s env fs).1 ≠ .ok () →
      (Store.save st p s env fs).2.dest = fs.dest) ∧
    (env.createOk = false →
      (Store.save st p s env fs).1 = .error .ioCreate) ∧
    (env.createOk = true → env.writeOk = false →
      (Store.save st p s env fs).1 = .error .ioWrite) ∧
    (env.createOk = true → env.writeOk = true → env.renameOk = false →
      (Store.save st p s env fs).1 = .error .ioRename) ∧
    (∀ c master, Store.load ⟨true, false, c⟩ master = ⟨1, []⟩) := by
  obtain ⟨ec, ew, er⟩ := env
  have henc := encrypt_store_eq st p s hp0
  cases ec <;> cases ew <;> cases er <;>
    simp [Store.save, henc, Store.load]

theorem claim_C5_io_errors_witness :
    ([65] : List Nat) ≠ [] ∧
    (((Store.save sampleStore [65] sampleSalt ⟨false, true, true⟩
          ⟨some .notJson, none⟩).1 ≠ .ok () →
        (Store.save sampleStore [65] sampleSalt ⟨false, true, true⟩
          ⟨some .notJson, none⟩).2.dest =
            (⟨some .notJson, none⟩ : FS).dest) ∧
      ((⟨false, true, true⟩ : IoEnv).createOk = false →
        (Store.save sampleStore [65] sampleSalt ⟨false, true, true⟩
          ⟨some .notJson, none⟩).1 = .error .ioCreate) ∧
      ((⟨false, true, true⟩ : IoEnv).createOk = true →
        (⟨false, true, true⟩ : IoEnv).writeOk = false →
        (Store.save sampleStore [65] sampleSalt ⟨false, true, true⟩
          ⟨some .notJson, none⟩).1 = .error .ioWrite) ∧
      ((⟨false, true, true⟩ : IoEnv).createOk = true →
        (⟨false, true, true⟩ : IoEnv).writeOk = true →
        (⟨false, true, true⟩ : IoEnv).renameOk = false →
        (Store.save sampleStore [65] sampleSalt ⟨false, true, true⟩
          ⟨some .notJson, none⟩).1 = .error .ioRename) ∧
      (∀ c master, Store.load ⟨true, false, c⟩ master = ⟨1, []⟩)) :=
  ⟨by decide,
   claim_C5_io_errors sampleStore [65] sampleSalt ⟨false, true, true⟩
     ⟨some .notJson, none⟩ (by decide)⟩

/-- C6: when the file's bytes do not decode as a container, `load` parses
them as a bare legacy collection and returns it unchanged on success; in
particular a file holding exactly the bare serialization of a collection
loads as that collection, records unchanged. -/
theorem claim_C6_legacy_fallback (c : FileContent) (st : Store)
    (master : List Nat) (h1 : readEncryptedFile c = none)
    (h2 : readBareStore c = some st) :
    Store.load ⟨true, true, c⟩ master = st ∧
    (∀ s2 : Store, StoreWf s2 → ∀ m2 : List Nat,
      Store.load ⟨true, true, .jsonVal (storeToJson s2)⟩ m2 = s2) := by
  constructor
  · simp [Store.load, h1, h2]
  · intro s2 hs2 m2
    have hd : readEncryptedFile (.jsonVal (storeToJson s2)) = none := by
      simp [readEncryptedFile, parseEncFromJson_storeToJson]
    have hb : readBareStore (.jsonVal (storeToJson s2)) = some s2 := by
      obtain ⟨w1, _, w3⟩ := hs2
      simp only [readBareStore]
      exact parseStoreFromJson_storeToJson s2 w1 (fun v hv => (w3 v hv).1)
    simp [Store.load, hd, hb]

theorem claim_C6_legacy_fallback_witness :
    readEncryptedFile (.jsonVal (storeToJson sampleStore)) = none ∧
    readBareStore (.jsonVal (storeToJson sampleStore)) =
      some sampleStore ∧
    (Store.load ⟨true, true, .jsonVal (storeToJson sampleStore)⟩ [65] =
        sampleStore ∧
      (∀ s2 : Store, StoreWf s2 → ∀ m2 : List Nat,
        Store.load ⟨true, true, .jsonVal (storeToJson s2)⟩ m2 = s2)) :=
  ⟨by decide, by decide,
   claim_C6_legacy_fallback (.jsonVal (storeToJson sampleStore))
     sampleStore [65] (by decide) (by decide)⟩

/-- C9: encryption always uses the default cost parameters
iterations = 3 and memory = 65536 KiB (64 MiB) and stores them, with the
salt, in the container; and decryption derives its key from exactly the
salt and cost parameters embedded in whatever container it reads — for
every embedded cost, opening a blob sealed under the key derived from
that embedded cost succeeds. -/
theorem claim_C9_cost_params (st : Store) (p s : List Nat)
    (hp : passWf p) (hs : saltWf s) (hst : StoreWf st) :
    (encrypt_store st p s).map (fun e =>
        (e.kdf_iterations, e.kdf_memory_kib, e.salt_b64)) =
      .ok (3, 65536, b64encode s) ∧
    (∀ iters mem : Nat, iters < 2 ^ 64 → mem < 2 ^ 64 →
      decrypt_store
        ⟨b64encode s, iters, mem,
         b64encode (aeadSeal (derive_key p s iters mem)
           (serializeStoreBytes st))⟩ p = .ok st) := by
  constructor
  · rw [encrypt_store_eq st p s hp.1]
    rfl
  · intro iters mem hit hm
    exact decrypt_store_sealed st p s iters mem hp hs hst hit hm

theorem claim_C9_cost_params_witness :
    passWf [65] ∧ saltWf sampleSalt ∧ StoreWf sampleStore ∧
    ((encrypt_store sampleStore [65] sampleSalt).map (fun e =>
        (e.kdf_iterations, e.kdf_memory_kib, e.salt_b64)) =
      .ok (3, 65536, b64encode sampleSalt) ∧
    (∀ iters mem : Nat, iters < 2 ^ 64 → mem < 2 ^ 64 →
      decrypt_store
        ⟨b64encode sampleSalt, iters, mem,
         b64encode (aeadSeal (derive_key [65] sampleSalt iters mem)
           (serializeStoreBytes sampleStore))⟩ [65] = .ok sampleStore)) :=
  ⟨by decide, by decide, by decide,
   claim_C9_cost_params sampleStore [65] sampleSalt (by decide)
     (by decide) (by decide)⟩

/-- C10: every successful save writes the encrypted container document —
salt, cost parameters and sealed blob — to the destination; that document
parses as an `EncryptedFile` and does *not* parse as a bare legacy
collection, so the bare plaintext format is never written and a legacy
file is replaced by an encrypted container (under the passphrase supplied
at that invocation) on the next successful save. -/
theorem claim_C10_save_writes_container (st : Store) (p s : List Nat)
    (env : IoEnv) (fs : FS) (hp0 : p ≠ []) (hc : env.createOk = true)
    (hw : env.writeOk = true) (hr : env.renameOk = true) :
    ∃ e : EncryptedFile,
      encrypt_store st p s = .ok e ∧
      (Store.save st p s env fs).1 = .ok () ∧
      (Store.save st p s env fs).2.dest =
        some (.jsonVal (encFileToJson e)) ∧
      parseEncFromJson (encFileToJson e) = some e ∧
      parseStoreFromJson (encFileToJson e) = none := by
  obtain ⟨ec, ew, er⟩ := env
  simp only at hc hw hr
  subst hc hw hr
  have henc := encrypt_store_eq st p s hp0
  refine ⟨_, henc, ?_, ?_,
    parseEncFromJson_encFileToJson _ (by norm_num) (by norm_num),
    parseStoreFromJson_encFileToJson _⟩
  · simp [Store.save, henc]
  · simp [Store.save, henc]

theorem claim_C10_save_writes_container_witness :
    ([65] : List Nat) ≠ [] ∧
    (⟨true, true, true⟩ : IoEnv).createOk = true ∧
    (⟨true, true, true⟩ : IoEnv).writeOk = true ∧
    (⟨true, true, true⟩ : IoEnv).renameOk = true ∧
    (∃ e : EncryptedFile,
      encrypt_store sampleStore [65] sampleSalt = .ok e ∧
      (Store.save sampleStore [65] sampleSalt ⟨true, true, true⟩
        ⟨some .notJson, none⟩).1 = .ok () ∧
      (Store.save sampleStore [65] sampleSalt ⟨true, true, true⟩
        ⟨some .notJson, none⟩).2.dest =
          some (.jsonVal (encFileToJson e)) ∧
      parseEncFromJson (encFileToJson e) = some e ∧
      parseStoreFromJson (encFileToJson e) = none) :=
  ⟨by decide, rfl, rfl, rfl,
   claim_C10_save_writes_container sampleStore [65] sampleSalt
     ⟨true, true, true⟩ ⟨some .notJson, none⟩ (by decide) rfl rfl rfl⟩
